import Mathlib

set_option linter.unusedVariables false

/-!
Verification of the heap lifecycle and page-ownership subsystem of a
mimalloc fork (src/heap.c) against its natural-language specification.

The C code is shallowly embedded: heaps and pages are records, machine
pointers are `Nat` (0 plays the role of NULL), the per-block link memory is
a function `Nat → Nat`, and the concurrent atomics of the original are
flattened into their sequential effect (a CAS-steal becomes a read plus an
assignment, the lock-free abandoned Treiber stack becomes a `List Nat` of
heap identifiers).  External collaborators that live outside src/heap.c
(page/segment layer, stats, deferred-free hook, OS layer) are parameters of
the model, bundled in `MiExternal`.  Loops of the C code whose termination
depends on well-formedness of linked lists take an explicit fuel argument.
-/

/-- Machine word size in bytes on the modelled 64-bit target
(MI_INTPTR_SIZE in the mimalloc headers). -/
def MI_INTPTR_SIZE : Nat := 8

/-- Modelled from the spec: MI_BIN_FULL, the index of the "full" page queue
after all size-class bins (mimalloc-internal headers, not under src/).  The
heap's `pages` array has MI_BIN_FULL + 1 queues; the exact numeric value is
immaterial to the claims. -/
def MI_BIN_FULL : Nat := 74

/-- UINTPTR_MAX of the 64-bit target. -/
def UINTPTR_MAX : Nat := 2 ^ 64 - 1

/-- MI_SMALL_PAGE_SIZE of the mimalloc headers (64 KiB). -/
def MI_SMALL_PAGE_SIZE : Nat := 65536

/-- MI_MAX_BLOCKS as defined in mi_heap_area_visit_blocks:
MI_SMALL_PAGE_SIZE / sizeof(void*). -/
def MI_MAX_BLOCKS : Nat := MI_SMALL_PAGE_SIZE / MI_INTPTR_SIZE

/-- A page as observed by src/heap.c: the core reads only its block region
(start address, capacity, block size, via the external `_mi_page_start`,
`mi_page_block_size`), its `used`/`reserved` counters and its free lists.
Free lists are flattened to the list of block addresses obtained by walking
them (the walk itself, `mi_block_next`, is external). -/
structure mi_page_t where
  pstart : Nat
  capacity : Nat
  block_size : Nat
  reserved : Nat
  used : Nat
  free : List Nat
  local_free : List Nat
  thread_free : List Nat
deriving DecidableEq

/-- A heap (mi_heap_t).  `tld` is an opaque handle to the thread-local
descriptor (`none` = NULL).  `pages` is the array of page queues indexed by
bin, flattened to a list of lists (each doubly-linked queue becomes the
list of its pages in order).  `thread_delayed_free` is the head address of
the obfuscated delayed-free list (0 = NULL); the stored links live in a
separate memory function. -/
structure mi_heap_t where
  tld : Option Nat
  pages : List (List mi_page_t)
  thread_delayed_free : Nat
  thread_id : Nat
  cookie : Nat
  key0 : Nat
  key1 : Nat
  page_count : Nat
  no_reclaim : Bool
  abandoned_next : Nat
deriving DecidableEq

/-- The canonical empty heap template (_mi_heap_empty). -/
def mi_heap_empty : mi_heap_t :=
  { tld := none
    pages := List.replicate (MI_BIN_FULL + 1) []
    thread_delayed_free := 0
    thread_id := 0
    cookie := 0
    key0 := 0
    key1 := 0
    page_count := 0
    no_reclaim := false
    abandoned_next := 0 }

/-- Modelled from the spec: mi_heap_is_initialized (mimalloc-internal.h,
not under src/) — a heap is initialized iff its `tld` pointer is non-null. -/
def mi_heap_is_initialized (h : mi_heap_t) : Bool := h.tld.isSome

/-- Sum of the lengths of all page queues of a heap; `page_count` is
specified to equal this at every stable point (spec invariant 2). -/
def mi_heap_page_sum (h : mi_heap_t) : Nat := (h.pages.map List.length).sum

/- -----------------------------------------------------------
   mi_heap_visit_pages and the per-page visitor pattern.
   The C visitor mutates state through `void*` arguments and returns
   `true` to continue; the model threads a state `σ` explicitly and
   returns the final state together with the continue/break flag.
----------------------------------------------------------- -/

/-- Inner loop of mi_heap_visit_pages over one page queue: visit pages in
order, stopping with `false` as soon as the visitor returns `false`.
(The C iterator saves `next` before the call; since the model works on an
immutable list, that detail is invisible here.) -/
def mi_heap_visit_queue {σ : Type} (heap : mi_heap_t)
    (fn : mi_heap_t → mi_page_t → σ → σ × Bool) :
    List mi_page_t → σ → σ × Bool
  | [], s => (s, true)
  | page :: rest, s =>
    let r := fn heap page s
    if r.2 then mi_heap_visit_queue heap fn rest r.1 else (r.1, false)

/-- Outer loop of mi_heap_visit_pages over the bins 0 .. MI_BIN_FULL. -/
def mi_heap_visit_bins {σ : Type} (heap : mi_heap_t)
    (fn : mi_heap_t → mi_page_t → σ → σ × Bool) :
    List (List mi_page_t) → σ → σ × Bool
  | [], s => (s, true)
  | q :: qs, s =>
    let r := mi_heap_visit_queue heap fn q s
    if r.2 then mi_heap_visit_bins heap fn qs r.1 else (r.1, false)

/-- mi_heap_visit_pages: visit all pages in a heap; returns `false` if
break was called.  Note the C code `return 0` (i.e. `false`) when the heap
is NULL or has no pages. -/
def mi_heap_visit_pages {σ : Type} (oh : Option mi_heap_t)
    (fn : mi_heap_t → mi_page_t → σ → σ × Bool) (s : σ) : σ × Bool :=
  match oh with
  | none => (s, false)
  | some heap =>
    if heap.page_count = 0 then (s, false)
    else mi_heap_visit_bins heap fn heap.pages s

/- -----------------------------------------------------------
   mi_heap_check_owned
----------------------------------------------------------- -/

/-- The range test of mi_heap_page_check_owned:
`p >= start && p < start + capacity * block_size` where `start` is
`_mi_page_start(segment, page, NULL)` (the `pstart` field). -/
def mi_page_contains (p : Nat) (page : mi_page_t) : Bool :=
  decide (page.pstart ≤ p) &&
    decide (p < page.pstart + page.capacity * page.block_size)

/-- mi_heap_page_check_owned: sets `*found` to the range test and continues
iff not found. -/
def mi_heap_page_check_owned (p : Nat) (heap : mi_heap_t) (page : mi_page_t)
    (found : Bool) : Bool × Bool :=
  (mi_page_contains p page, ! mi_page_contains p page)

/-- mi_heap_check_owned: false on uninitialized heaps and on pointers that
are not machine-word aligned; otherwise scan all pages with
mi_heap_page_check_owned. -/
def mi_heap_check_owned (h : mi_heap_t) (p : Nat) : Bool :=
  if mi_heap_is_initialized h = false then false
  else if p &&& (MI_INTPTR_SIZE - 1) ≠ 0 then false
  else (mi_heap_visit_pages (some h) (mi_heap_page_check_owned p) false).1

/-- Modelled from the spec: the contract claimed for check_owned — `p` is
the base address of a currently allocated block (a block of some page of
the heap that sits on none of the page's free lists). -/
def spec_owned_block_base (h : mi_heap_t) (p : Nat) : Bool :=
  h.pages.any fun q => q.any fun page =>
    (List.range page.capacity).any fun i =>
      decide (p = page.pstart + i * page.block_size) &&
      ! (page.free.contains p || page.local_free.contains p ||
         page.thread_free.contains p)

/- -----------------------------------------------------------
   The delayed-free list: obfuscated links and mi_heap_absorb
----------------------------------------------------------- -/

/-- Modelled from the spec: mi_block_set_nextx (mimalloc-internal.h) —
writing a next link always XOR-encodes the pointer against the heap's
keys key[0], key[1] (spec 4.2). -/
def mi_block_set_nextx (k0 k1 next : Nat) : Nat := next ^^^ (k0 ^^^ k1)

/-- Modelled from the spec: mi_block_nextx — reading a next link decodes
the stored word against the keys (inverse of mi_block_set_nextx). -/
def mi_block_nextx (k0 k1 stored : Nat) : Nat := stored ^^^ (k0 ^^^ k1)

/-- Pointwise update of the block-link memory. -/
def updMem (mem : Nat → Nat) (a v : Nat) : Nat → Nat :=
  fun x => if x = a then v else mem x

/-- mi_heap_reset_pages: zero out the page queues, the delayed-free head
and the page count (the memsets against _mi_heap_empty). -/
def mi_heap_reset_pages (h : mi_heap_t) : mi_heap_t :=
  { h with pages := h.pages.map (fun _ => [])
           thread_delayed_free := 0
           page_count := 0 }

/-- The re-encoding walk of mi_heap_absorb: follow the stolen delayed-free
list under `from`'s keys, rewriting every non-final link under the
absorbing heap's keys, and return the updated memory together with the
last block of the list.  The C `while` loop terminates because the list is
well formed; the model takes fuel. -/
def mi_heap_absorb_reencode (fuel : Nat) (mem : Nat → Nat)
    (fk0 fk1 tk0 tk1 last : Nat) : (Nat → Nat) × Nat :=
  match fuel with
  | 0 => (mem, last)
  | Nat.succ fuel =>
    let next := mi_block_nextx fk0 fk1 (mem last)
    if next = 0 then (mem, last)
    else
      mi_heap_absorb_reencode fuel
        (updMem mem last (mi_block_set_nextx tk0 tk1 next)) fk0 fk1 tk0 tk1 next

/-- mi_heap_absorb: transfer the pages from one heap to the other, then
steal and re-encode `from`'s thread_delayed_free list, then reset `from`.
Returns (heap after, from after, memory after).  The C `from == NULL`
early-out corresponds to the caller-side lookup in the world model;
`from->page_count == 0` returns everything unchanged.  `_mi_page_queue_append`
(external) splices each of `from`'s queues onto the tail of the matching
queue and returns the number of pages moved. -/
def mi_heap_absorb (fuel : Nat) (heap fromh : mi_heap_t) (mem : Nat → Nat) :
    mi_heap_t × mi_heap_t × (Nat → Nat) :=
  if fromh.page_count = 0 then (heap, fromh, mem)
  else
    let moved := (fromh.pages.map List.length).sum
    let heap1 : mi_heap_t :=
      { heap with pages := List.zipWith (fun a b => a ++ b) heap.pages fromh.pages
                  page_count := heap.page_count + moved }
    let fromh1 : mi_heap_t :=
      { fromh with pages := fromh.pages.map (fun _ => [])
                   page_count := fromh.page_count - moved }
    let first := fromh1.thread_delayed_free
    let fromh2 : mi_heap_t := { fromh1 with thread_delayed_free := 0 }
    if first = 0 then (heap1, mi_heap_reset_pages fromh2, mem)
    else
      let r := mi_heap_absorb_reencode fuel mem fromh.key0 fromh.key1
                 heap.key0 heap.key1 first
      let mem2 := updMem r.1 r.2
                    (mi_block_set_nextx heap.key0 heap.key1 heap1.thread_delayed_free)
      let heap2 : mi_heap_t := { heap1 with thread_delayed_free := first }
      (heap2, mi_heap_reset_pages fromh2, mem2)

/-- A well-formed obfuscated list segment in the block memory: starting at
head address `h`, following links decoded with keys (k0, k1) visits exactly
the (non-null) addresses in `l` and then exits to `t`. -/
inductive BlockChain (mem : Nat → Nat) (k0 k1 : Nat) : Nat → List Nat → Nat → Prop where
  | nil (t : Nat) : BlockChain mem k0 k1 t [] t
  | cons {a t : Nat} {l : List Nat} (ha : a ≠ 0)
      (tail : BlockChain mem k0 k1 (mi_block_nextx k0 k1 (mem a)) l t) :
      BlockChain mem k0 k1 a (a :: l) t

/- -----------------------------------------------------------
   The world model: heaps addressed by identifiers, the thread's
   default and backing heap, the process-wide abandoned stack, and
   the external collaborators of spec section 6.
----------------------------------------------------------- -/

/-- Instrumentation markers recorded by the model: the single event the
claims need is the invocation of _mi_heap_try_reclaim_abandoned together
with its `all` argument. -/
inductive MiEvent where
  | tryReclaimAbandoned (all : Bool)
deriving DecidableEq

/-- The mutable state external collaborators may touch: the heap map, the
block-link memory, the thread's default-heap and backing-heap slots, and
the process-wide abandoned stack (the lock-free Treiber stack of heaps
flattened to the list of heap identifiers from head to tail). -/
structure MiCore where
  heaps : Nat → Option mi_heap_t
  mem : Nat → Nat
  default_heap : Nat
  heap_backing : Nat
  abandoned : List Nat

/-- The world: the core state plus the instrumentation trace. -/
structure MiWorld where
  core : MiCore
  events : List MiEvent

/-- Modelled from the spec: the external collaborators of spec section 6
(per-page operations, segment manager, OS cache, deferred-free hook,
stats).  Each is an opaque transformer of the heap it is handed (and the
block memory where relevant); per their contracts none of them touches the
abandoned stack or the default-heap slot. -/
structure MiExternal where
  deferredFree : Bool → mi_heap_t → mi_heap_t
  heapDelayedFree : mi_heap_t → (Nat → Nat) → mi_heap_t × (Nat → Nat)
  collectRetired : mi_heap_t → Bool → mi_heap_t
  segmentThreadCollect : mi_heap_t → mi_heap_t
  memCollect : mi_heap_t → mi_heap_t
  isMainThread : Bool
  statsDone : mi_heap_t → mi_heap_t
  segmentsAbsorb : mi_heap_t → mi_heap_t → mi_heap_t × mi_heap_t
  ptr_segment : Nat → Nat
  ptr_cookie : Nat → Nat
  segment_cookie : Nat → Nat
  segment_page_heap : Nat → Nat → Option Nat

/-- Update one slot of the heap map. -/
def setHeapFun (f : Nat → Option mi_heap_t) (id : Nat) (v : Option mi_heap_t) :
    Nat → Option mi_heap_t :=
  fun x => if x = id then v else f x

/-- Record an instrumentation event. -/
def emitEvent (w : MiWorld) (e : MiEvent) : MiWorld :=
  { w with events := w.events ++ [e] }

/-- Apply a heap transformer to the heap stored at `id`, if any. -/
def applyHeap (w : MiWorld) (id : Nat) (f : mi_heap_t → mi_heap_t) : MiWorld :=
  match w.core.heaps id with
  | none => w
  | some h =>
    { w with core := { w.core with heaps := setHeapFun w.core.heaps id (some (f h)) } }

/-- mi_heap_is_backing: heap->tld->heap_backing == heap, with the backing
pointer of the (single modelled) thread held in the core. -/
def mi_heap_is_backing (w : MiWorld) (id : Nat) : Bool :=
  w.core.heap_backing == id

/-- mi_heap_is_default: heap == mi_get_default_heap(). -/
def mi_heap_is_default (w : MiWorld) (id : Nat) : Bool :=
  w.core.default_heap == id

/-- Modelled from the spec: _mi_heap_backing_free (not under src/) —
release the storage of a backing heap, together with its thread-local
descriptor. -/
def mi_heap_backing_free (w : MiWorld) (id : Nat) : MiWorld :=
  { w with core := { w.core with heaps := setHeapFun w.core.heaps id none } }

/-- _mi_heap_delayed_free applied through the world (external drain of the
heap's own delayed-free list back into its pages). -/
def heapDelayedFreeW (E : MiExternal) (w : MiWorld) (id : Nat) : MiWorld :=
  match w.core.heaps id with
  | none => w
  | some h =>
    let r := E.heapDelayedFree h w.core.mem
    { w with core := { w.core with heaps := setHeapFun w.core.heaps id (some r.1)
                                   mem := r.2 } }

/-- mi_heap_absorb applied through the world to the heaps stored at
`toId` and `fromId`; a missing `fromId` is the C `from == NULL` early-out. -/
def mi_heap_absorbW (fuel : Nat) (w : MiWorld) (toId fromId : Nat) : MiWorld :=
  match w.core.heaps toId, w.core.heaps fromId with
  | some t, some f =>
    let r := mi_heap_absorb fuel t f w.core.mem
    { w with core := { w.core with
        heaps := setHeapFun (setHeapFun w.core.heaps toId (some r.1)) fromId (some r.2.1)
        mem := r.2.2 } }
  | _, _ => w

/-- _mi_segments_absorb applied through the world (external transfer of
segment ownership between the two thread-local descriptors). -/
def mi_segments_absorbW (E : MiExternal) (w : MiWorld) (toId fromId : Nat) : MiWorld :=
  match w.core.heaps toId, w.core.heaps fromId with
  | some t, some f =>
    let r := E.segmentsAbsorb t f
    { w with core := { w.core with
        heaps := setHeapFun (setHeapFun w.core.heaps toId (some r.1)) fromId (some r.2) } }
  | _, _ => w

/-- mi_heap_prepend_abandoned: atomically prepend a chain of abandoned
heaps to the global stack (the chain through `abandoned_next` given as the
list of its heap ids; empty chain is a no-op). -/
def mi_heap_prepend_abandoned (w : MiWorld) (chain : List Nat) : MiWorld :=
  match chain with
  | [] => w
  | _ => { w with core := { w.core with abandoned := chain ++ w.core.abandoned } }

/-- The reclaim loop of _mi_heap_try_reclaim_abandoned: for each claimed
heap, absorb it, transfer its segments and release its storage. -/
def mi_reclaim_loop (E : MiExternal) (fuel : Nat) (w : MiWorld) (id : Nat) :
    List Nat → MiWorld
  | [] => w
  | r :: rs =>
    mi_reclaim_loop E fuel
      (mi_heap_backing_free (mi_segments_absorbW E (mi_heap_absorbW fuel w id r) id r) r)
      id rs

/-- _mi_heap_try_reclaim_abandoned: skip for no_reclaim heaps; claim the
entire abandoned stack atomically; if not `all`, keep only the head and
prepend the remainder back; absorb every claimed heap.  The invocation is
recorded as an event. -/
def mi_heap_try_reclaim_abandoned (E : MiExternal) (fuel : Nat) (w : MiWorld)
    (id : Nat) (all : Bool) : MiWorld :=
  let w0 := emitEvent w (MiEvent.tryReclaimAbandoned all)
  match w0.core.heaps id with
  | none => w0
  | some h =>
    if h.no_reclaim then w0
    else
      match w0.core.abandoned with
      | [] => w0
      | r :: rest =>
        let w1 := { w0 with core := { w0.core with abandoned := [] } }
        if all then mi_reclaim_loop E fuel w1 id (r :: rest)
        else
          let w2 := mi_heap_prepend_abandoned
                      (applyHeap w1 r (fun h => { h with abandoned_next := 0 })) rest
          mi_reclaim_loop E fuel w2 id [r]

/-- The collect modes. -/
inductive mi_collect_t where
  | NORMAL
  | FORCE
  | ABANDON
deriving DecidableEq

/-- Numeric value of the C enum, used for the ordered comparisons
`collect > NORMAL` and `collect >= FORCE`. -/
def mi_collect_t.val : mi_collect_t → Nat
  | .NORMAL => 0
  | .FORCE => 1
  | .ABANDON => 2

/-- mi_heap_collect_ex: no-op on uninitialized heaps; otherwise run the
deferred-free hook, invoke try_reclaim_abandoned (unconditionally, with
all = (collect == FORCE)), drain the delayed-free list, collect retired
pages, and at FORCE and above collect segment caches (and OS regions on
the main thread). -/
def mi_heap_collect_ex (E : MiExternal) (fuel : Nat) (w : MiWorld) (id : Nat)
    (collect : mi_collect_t) : MiWorld :=
  match w.core.heaps id with
  | none => w
  | some h =>
    if mi_heap_is_initialized h = false then w
    else
      let w1 := applyHeap w id (E.deferredFree (decide (mi_collect_t.NORMAL.val < collect.val)))
      let w2 := mi_heap_try_reclaim_abandoned E fuel w1 id (decide (collect = mi_collect_t.FORCE))
      let w3 := heapDelayedFreeW E w2 id
      let w4 := applyHeap w3 id (fun h => E.collectRetired h true)
      let w5 := if mi_collect_t.FORCE.val ≤ collect.val
                then applyHeap w4 id E.segmentThreadCollect else w4
      if mi_collect_t.FORCE.val ≤ collect.val ∧ E.isMainThread = true
      then applyHeap w5 id E.memCollect else w5

/-- mi_heap_collect. -/
def mi_heap_collect (E : MiExternal) (fuel : Nat) (w : MiWorld) (id : Nat)
    (force : Bool) : MiWorld :=
  mi_heap_collect_ex E fuel w id (if force then mi_collect_t.FORCE else mi_collect_t.NORMAL)

/-- _mi_heap_collect_abandon: collect with ABANDON, finalize stats, then
either free the heap immediately (page_count == 0) or null its
abandoned_next and prepend it to the abandoned stack as a one-element
chain. -/
def mi_heap_collect_abandon (E : MiExternal) (fuel : Nat) (w : MiWorld) (id : Nat) :
    MiWorld :=
  let w1 := mi_heap_collect_ex E fuel w id mi_collect_t.ABANDON
  let w2 := applyHeap w1 id E.statsDone
  match w2.core.heaps id with
  | none => w2
  | some h =>
    if h.page_count = 0 then mi_heap_backing_free w2 id
    else
      mi_heap_prepend_abandoned
        (applyHeap w2 id (fun h => { h with abandoned_next := 0 })) [id]

/-- mi_heap_free: never frees the backing heap; resets the thread's
default heap to the backing heap when the freed heap is the current
default; then releases the heap's storage via mi_free. -/
def mi_heap_free (w : MiWorld) (id : Nat) : MiWorld :=
  match w.core.heaps id with
  | none => w
  | some h =>
    if mi_heap_is_backing w id then w
    else
      let w1 := if mi_heap_is_default w id
                then { w with core := { w.core with default_heap := w.core.heap_backing } }
                else w
      { w1 with core := { w1.core with heaps := setHeapFun w1.core.heaps id none } }

/-- mi_heap_delete: no-op when uninitialized; a non-backing heap transfers
its pages to the backing heap by absorb, the backing heap abandons its
pages; then the heap object is released. -/
def mi_heap_delete (E : MiExternal) (fuel : Nat) (w : MiWorld) (id : Nat) : MiWorld :=
  match w.core.heaps id with
  | none => w
  | some h =>
    if mi_heap_is_initialized h = false then w
    else if mi_heap_is_backing w id = false then
      mi_heap_free (mi_heap_absorbW fuel w w.core.heap_backing id) id
    else
      mi_heap_free (mi_heap_collect_abandon E fuel w id) id

/-- _mi_heap_destroy_pages: destroy every page (each page is handed to the
external segment manager by _mi_heap_page_destroy; the net effect on the
heap object is mi_heap_reset_pages). -/
def mi_heap_destroy_pagesW (w : MiWorld) (id : Nat) : MiWorld :=
  applyHeap w id mi_heap_reset_pages

/-- mi_heap_destroy: no-op when uninitialized; silently downgraded to
mi_heap_delete when no_reclaim is false; otherwise destroy all pages and
release the heap object. -/
def mi_heap_destroy (E : MiExternal) (fuel : Nat) (w : MiWorld) (id : Nat) : MiWorld :=
  match w.core.heaps id with
  | none => w
  | some h =>
    if mi_heap_is_initialized h = false then w
    else if h.no_reclaim = false then mi_heap_delete E fuel w id
    else mi_heap_free (mi_heap_destroy_pagesW w id) id

/-- mi_heap_set_default: returns NULL (and changes nothing) on an
uninitialized heap; otherwise returns the previous default heap and
installs the new one via _mi_heap_set_default_direct. -/
def mi_heap_set_default (w : MiWorld) (id : Nat) : Option Nat × MiWorld :=
  match w.core.heaps id with
  | none => (none, w)
  | some h =>
    if mi_heap_is_initialized h = false then (none, w)
    else (some w.core.default_heap,
          { w with core := { w.core with default_heap := id } })

/-- mi_heap_of_block: resolve the enclosing segment of a pointer, validate
its cookie, and return the owning heap of the resolved page (externals
_mi_ptr_segment, _mi_ptr_cookie, _mi_segment_page_of / mi_page_heap). -/
def mi_heap_of_block (E : MiExternal) (p : Nat) : Option Nat :=
  if p = 0 then none
  else
    let segment := E.ptr_segment p
    if (E.ptr_cookie segment == E.segment_cookie segment) = false then none
    else E.segment_page_heap segment p

/-- mi_heap_contains_block: false on uninitialized heaps; otherwise
compare the owning heap of the block with the queried heap. -/
def mi_heap_contains_block (E : MiExternal) (w : MiWorld) (id : Nat) (p : Nat) : Bool :=
  match w.core.heaps id with
  | none => false
  | some h =>
    if mi_heap_is_initialized h = false then false
    else mi_heap_of_block E p == some id

/- -----------------------------------------------------------
   Area / block visitor (mi_heap_visit_blocks and helpers)
----------------------------------------------------------- -/

/-- mi_heap_area_t: one area per page, as exposed to the public block
visitor. -/
structure mi_heap_area_t where
  blocks : Nat
  reserved : Nat
  committed : Nat
  used : Nat
  block_size : Nat
deriving DecidableEq

/-- mi_heap_area_ex_t: the area together with its page. -/
structure mi_heap_area_ex_t where
  area : mi_heap_area_t
  page : mi_page_t
deriving DecidableEq

/-- The type of mi_block_visit_fun: heap, area, block pointer (0 when the
area itself is reported), block size, threaded state. -/
def MiBlockVisitFun (σ : Type) : Type :=
  mi_heap_t → mi_heap_area_t → Nat → Nat → σ → σ × Bool

/-- The free-block bitmap construction of mi_heap_area_visit_blocks: for
every block on the page's free list, set bit `blockidx mod sizeof(uintptr_t)`
of word `blockidx / sizeof(uintptr_t)` (the exact index arithmetic of the
C code). -/
def mi_build_free_map (pstart bsize : Nat) : List Nat → (Nat → Nat) → (Nat → Nat)
  | [], fm => fm
  | b :: rest, fm =>
    let offset := b - pstart
    let blockidx := offset / bsize
    let bitidx := blockidx / MI_INTPTR_SIZE
    let bit := blockidx - bitidx * MI_INTPTR_SIZE
    mi_build_free_map pstart bsize rest
      (fun x => if x = bitidx then fm bitidx ||| (1 <<< bit) else fm x)

/-- The capacity loop of mi_heap_area_visit_blocks: walk through all
blocks skipping the free ones; a word that reads UINTPTR_MAX at bit 0
skips a run of sizeof(uintptr_t) blocks. -/
def mi_area_visit_used {σ : Type} (pho : mi_page_t → mi_heap_t)
    (area : mi_heap_area_t) (page : mi_page_t) (pstart bsize : Nat)
    (free_map : Nat → Nat) (visitor : MiBlockVisitFun σ) (s : σ) (i : Nat) :
    σ × Bool :=
  if hi : i < page.capacity then
    let bitidx := i / MI_INTPTR_SIZE
    let bit := i - bitidx * MI_INTPTR_SIZE
    let m := free_map bitidx
    if bit = 0 ∧ m = UINTPTR_MAX then
      mi_area_visit_used pho area page pstart bsize free_map visitor s
        (i + MI_INTPTR_SIZE)
    else if m &&& (1 <<< bit) = 0 then
      let r := visitor (pho page) area (pstart + i * bsize) bsize s
      if r.2 then
        mi_area_visit_used pho area page pstart bsize free_map visitor r.1 (i + 1)
      else (r.1, false)
    else mi_area_visit_used pho area page pstart bsize free_map visitor s (i + 1)
  else (s, true)
termination_by page.capacity - i
decreasing_by
  all_goals simp [MI_INTPTR_SIZE]
  all_goals omega

/-- mi_heap_area_visit_blocks: collect the page's pending frees (external
_mi_page_free_collect, parameter `pfc`), short-circuit empty and
single-block pages, otherwise materialize the free bitmap and walk the
capacity.  `pho` is the external mi_page_heap back-pointer resolution. -/
def mi_heap_area_visit_blocks {σ : Type} (pfc : Bool → mi_page_t → mi_page_t)
    (pho : mi_page_t → mi_heap_t) (xarea : mi_heap_area_ex_t)
    (visitor : MiBlockVisitFun σ) (s : σ) : σ × Bool :=
  let area := xarea.area
  let page := pfc true xarea.page
  if page.used = 0 then (s, true)
  else
    let bsize := page.block_size
    let pstart := page.pstart
    if page.capacity = 1 then visitor (pho page) area pstart bsize s
    else
      let free_map := mi_build_free_map pstart bsize page.free (fun _ => 0)
      mi_area_visit_used pho area page pstart bsize free_map visitor s 0

/-- mi_heap_visit_areas_page: build the area record of a page (after an
external _mi_page_free_collect with force = false) and hand it to the
area visitor. -/
def mi_heap_visit_areas_page {σ : Type} (pfc : Bool → mi_page_t → mi_page_t)
    (fn : mi_heap_t → mi_heap_area_ex_t → σ → σ × Bool)
    (heap : mi_heap_t) (page : mi_page_t) (s : σ) : σ × Bool :=
  let page1 := pfc false page
  let bsize := page1.block_size
  let xarea : mi_heap_area_ex_t :=
    { page := page1
      area := { reserved := page1.reserved * bsize
                committed := page1.capacity * bsize
                blocks := page1.pstart
                used := page1.used
                block_size := bsize } }
  fn heap xarea s

/-- mi_heap_visit_areas: visit all heap pages as areas (false when the
visitor function pointer is NULL). -/
def mi_heap_visit_areas {σ : Type} (pfc : Bool → mi_page_t → mi_page_t)
    (oh : Option mi_heap_t)
    (visitor : Option (mi_heap_t → mi_heap_area_ex_t → σ → σ × Bool))
    (s : σ) : σ × Bool :=
  match visitor with
  | none => (s, false)
  | some f => mi_heap_visit_pages oh (mi_heap_visit_areas_page pfc f) s

/-- mi_visit_blocks_args_t. -/
structure mi_visit_blocks_args_t (σ : Type) where
  visit_blocks : Bool
  visitor : MiBlockVisitFun σ

/-- mi_heap_area_visitor: report the area itself, then optionally its
in-use blocks. -/
def mi_heap_area_visitor {σ : Type} (pfc : Bool → mi_page_t → mi_page_t)
    (pho : mi_page_t → mi_heap_t) (args : mi_visit_blocks_args_t σ)
    (heap : mi_heap_t) (xarea : mi_heap_area_ex_t) (s : σ) : σ × Bool :=
  let r := args.visitor heap xarea.area 0 xarea.area.block_size s
  if r.2 then
    if args.visit_blocks then mi_heap_area_visit_blocks pfc pho xarea args.visitor r.1
    else (r.1, true)
  else (r.1, false)

/-- mi_heap_visit_blocks: visit all blocks in a heap. -/
def mi_heap_visit_blocks {σ : Type} (pfc : Bool → mi_page_t → mi_page_t)
    (pho : mi_page_t → mi_heap_t) (oh : Option mi_heap_t)
    (visit_blocks : Bool) (visitor : MiBlockVisitFun σ) (s : σ) : σ × Bool :=
  mi_heap_visit_areas pfc oh
    (some (mi_heap_area_visitor pfc pho
            { visit_blocks := visit_blocks, visitor := visitor })) s

/- -----------------------------------------------------------
   Abandoned-stack invariant (claim C8)
----------------------------------------------------------- -/

/-- A heap identifier denotes a live, non-empty heap. -/
def heapAlive (c : MiCore) (id : Nat) : Bool :=
  match c.heaps id with
  | some h => decide (0 < h.page_count)
  | none => false

/-- Every heap on the abandoned stack is live with page_count > 0. -/
def StackOk (c : MiCore) : Prop :=
  ∀ id ∈ c.abandoned, heapAlive c id = true

/-- The invariant carried through _mi_heap_collect_abandon for the heap
`id` being abandoned: the stack invariant holds, `id` is not already on
the stack, the stack has no duplicates, and `id` is a live heap object. -/
def AbandonInv (id : Nat) (w : MiWorld) : Prop :=
  StackOk w.core ∧ id ∉ w.core.abandoned ∧ w.core.abandoned.Nodup ∧
    (w.core.heaps id).isSome = true

/- -----------------------------------------------------------
   Concrete instances used by counterexamples and witnesses
----------------------------------------------------------- -/

/-- Trivial instantiation of the external collaborators: hooks that leave
the heap and memory unchanged (a legal environment: no pending deferred
work, no retired pages, nothing to drain). -/
def trivialExternal : MiExternal :=
  { deferredFree := fun _ h => h
    heapDelayedFree := fun h m => (h, m)
    collectRetired := fun h _ => h
    segmentThreadCollect := fun h => h
    memCollect := fun h => h
    isMainThread := false
    statsDone := fun h => h
    segmentsAbsorb := fun a b => (a, b)
    ptr_segment := fun _ => 0
    ptr_cookie := fun _ => 0
    segment_cookie := fun _ => 1
    segment_page_heap := fun _ _ => none }

/-- A page with four 16-byte blocks at [64, 128), none of them free. -/
def c1page : mi_page_t :=
  { pstart := 64, capacity := 4, block_size := 16, reserved := 4, used := 4
    free := [], local_free := [], thread_free := [] }

/-- An initialized heap holding exactly c1page in bin 0. -/
def c1heap : mi_heap_t :=
  { mi_heap_empty with tld := some 0, page_count := 1
                       pages := [c1page] :: List.replicate MI_BIN_FULL [] }

/-- Absorb counterexample: a heap with no pages but a non-empty
thread_delayed_free list (one block at address 16). -/
def c3from : mi_heap_t :=
  { mi_heap_empty with tld := some 0, key0 := 1, key1 := 2
                       thread_delayed_free := 16 }

/-- Absorbing heap for the counterexample. -/
def c3to : mi_heap_t :=
  { mi_heap_empty with tld := some 0, key0 := 4, key1 := 8 }

/-- Block memory for the absorb counterexample: block 16 carries the
from-encoded null link. -/
def c3mem : Nat → Nat :=
  fun x => if x = 16 then mi_block_set_nextx 1 2 0 else 0

/-- Witness instance for the amended absorb claim: same delayed-free list,
but `from` holds one page. -/
def c3fromW : mi_heap_t :=
  { mi_heap_empty with tld := some 0, key0 := 1, key1 := 2
                       thread_delayed_free := 16
                       page_count := 1
                       pages := [c1page] :: List.replicate MI_BIN_FULL [] }

/-- A world holding a single initialized heap (id 1) with no pages; heap 1
is both the default and the backing heap; the abandoned stack is empty. -/
def c2world : MiWorld :=
  { core := { heaps := fun n => if n = 1 then some { mi_heap_empty with tld := some 0 } else none
              mem := fun _ => 0
              default_heap := 1
              heap_backing := 1
              abandoned := [] }
    events := [] }

/-- The backing heap of the delete counterexample world: initialized, one
live page, no_reclaim false. -/
def c4heap : mi_heap_t :=
  { mi_heap_empty with tld := some 0, page_count := 1
                       pages := [c1page] :: List.replicate MI_BIN_FULL [] }

/-- World for the delete claim: heap 1 is the thread's backing and default
heap and still holds one live page. -/
def c4world : MiWorld :=
  { core := { heaps := fun n => if n = 1 then some c4heap else none
              mem := fun _ => 0
              default_heap := 1
              heap_backing := 1
              abandoned := [] }
    events := [] }

/-- An uninitialized heap object (tld = NULL). -/
def c7heap : mi_heap_t := { mi_heap_empty with cookie := 5 }

/-- World for the uninitialized no-op claim: heap 2 is an uninitialized
heap object; heap 1 is the initialized backing/default heap. -/
def c7world : MiWorld :=
  { core := { heaps := fun n =>
                if n = 1 then some { mi_heap_empty with tld := some 0 }
                else if n = 2 then some c7heap else none
              mem := fun _ => 0
              default_heap := 1
              heap_backing := 1
              abandoned := [] }
    events := [] }

/-- Heaps for the absorb additivity witness: A holds one page in bin 0. -/
def c5heapA : mi_heap_t :=
  { mi_heap_empty with tld := some 0, page_count := 1
                       pages := [c1page] :: List.replicate MI_BIN_FULL [] }

/-- B holds one page in bin 1. -/
def c5heapB : mi_heap_t :=
  { mi_heap_empty with tld := some 0, page_count := 1
                       pages := [] :: [c1page] :: List.replicate (MI_BIN_FULL - 1) [] }

/-- World used by the destroy-downgrade witness: heap 2 is an initialized
non-backing heap with no_reclaim = false. -/
def c6world : MiWorld :=
  { core := { heaps := fun n =>
                if n = 1 then some { mi_heap_empty with tld := some 0 }
                else if n = 2 then some { mi_heap_empty with tld := some 0 } else none
              mem := fun _ => 0
              default_heap := 1
              heap_backing := 1
              abandoned := [] }
    events := [] }

/- -----------------------------------------------------------
   Theorems.  Helper lemmas first, then one theorem per claim
   (with witnesses / counterexamples).
----------------------------------------------------------- -/

theorem visit_queue_check_owned (heap : mi_heap_t) (p : Nat) (q : List mi_page_t) :
    mi_heap_visit_queue heap (mi_heap_page_check_owned p) q false =
      (q.any (mi_page_contains p), ! q.any (mi_page_contains p)) := by
  induction q with
  | nil => rfl
  | cons pg rest ih =>
    simp only [mi_heap_visit_queue, mi_heap_page_check_owned, List.any_cons]
    cases hc : mi_page_contains p pg
    · simpa [hc] using ih
    · simp [hc]

theorem visit_bins_check_owned (heap : mi_heap_t) (p : Nat)
    (bins : List (List mi_page_t)) :
    mi_heap_visit_bins heap (mi_heap_page_check_owned p) bins false =
      (bins.any (fun q => q.any (mi_page_contains p)),
       ! bins.any (fun q => q.any (mi_page_contains p))) := by
  induction bins with
  | nil => rfl
  | cons q qs ih =>
    simp only [mi_heap_visit_bins, visit_queue_check_owned, List.any_cons]
    cases hc : q.any (mi_page_contains p)
    · simpa [hc] using ih
    · simp [hc]

theorem pages_empty_of_sum_zero {bins : List (List mi_page_t)}
    (h : (bins.map List.length).sum = 0) : ∀ q ∈ bins, q = [] := by
  induction bins with
  | nil => intro q hq; cases hq
  | cons b bs ih =>
    simp only [List.map_cons, List.sum_cons] at h
    intro q hq
    rcases List.mem_cons.mp hq with rfl | hq
    · exact List.length_eq_zero.mp (by omega)
    · exact ih (by omega) q hq

/-- C1 (amended): for an initialized heap whose page_count matches its
queues, check_owned reports exactly the machine-word aligned pointers that
fall anywhere inside the block region of some page of the heap — a range
test, which also reports interior pointers and blocks on a free list. -/
theorem mi_heap_check_owned_range_spec (h : mi_heap_t) (p : Nat)
    (hinit : mi_heap_is_initialized h = true)
    (hcount : h.page_count = mi_heap_page_sum h) :
    mi_heap_check_owned h p = true ↔
      (p &&& (MI_INTPTR_SIZE - 1) = 0 ∧
       ∃ q ∈ h.pages, ∃ page ∈ q,
         page.pstart ≤ p ∧ p < page.pstart + page.capacity * page.block_size) := by
  unfold mi_heap_check_owned
  rw [if_neg (by simp [hinit] : ¬ (mi_heap_is_initialized h = false))]
  by_cases hal : p &&& (MI_INTPTR_SIZE - 1) = 0
  · rw [if_neg (not_not_intro hal)]
    by_cases hpc : h.page_count = 0
    · have hempty : ∀ q ∈ h.pages, q = [] :=
        pages_empty_of_sum_zero (by rw [← mi_heap_page_sum]; omega)
      simp only [mi_heap_visit_pages, if_pos hpc]
      constructor
      · intro hfalse; cases hfalse
      · rintro ⟨-, q, hq, page, hpg, -⟩
        rw [hempty q hq] at hpg
        cases hpg
    · simp only [mi_heap_visit_pages, if_neg hpc, visit_bins_check_owned]
      simp [mi_page_contains, List.any_eq_true, hal]
  · rw [if_pos hal]
    simp [hal]

/-- C1 (counterexample): on an initialized heap holding one page with four
16-byte blocks at [64, 128), none free, the aligned interior pointer 72 is
reported owned by mi_heap_check_owned although it is not the base of any
allocated block — the claimed iff fails. -/
theorem mi_heap_check_owned_claim_counterexample :
    ¬ (mi_heap_check_owned c1heap 72 = true ↔
        (72 &&& (MI_INTPTR_SIZE - 1) = 0 ∧ spec_owned_block_base c1heap 72 = true)) := by
  decide

/-- Witness for the amended check_owned claim at the block base 64. -/
theorem mi_heap_check_owned_range_spec_witness :
    mi_heap_check_owned c1heap 64 = true ↔
      (64 &&& (MI_INTPTR_SIZE - 1) = 0 ∧
       ∃ q ∈ c1heap.pages, ∃ page ∈ q,
         page.pstart ≤ 64 ∧ 64 < page.pstart + page.capacity * page.block_size) :=
  mi_heap_check_owned_range_spec c1heap 64 (by decide) (by decide)

theorem mi_block_decode_encode (k0 k1 x : Nat) :
    mi_block_nextx k0 k1 (mi_block_set_nextx k0 k1 x) = x := by
  simp [mi_block_nextx, mi_block_set_nextx, Nat.xor_assoc]

theorem updMem_self (mem : Nat → Nat) (a v : Nat) : updMem mem a v a = v := by
  simp [updMem]

theorem updMem_ne (mem : Nat → Nat) {a x : Nat} (v : Nat) (h : x ≠ a) :
    updMem mem a v x = mem x := by
  simp [updMem, h]

theorem BlockChain.eq_of_nil {mem : Nat → Nat} {k0 k1 h t : Nat}
    (hc : BlockChain mem k0 k1 h [] t) : h = t := by
  cases hc; rfl

theorem BlockChain.head_eq {mem : Nat → Nat} {k0 k1 h t b : Nat} {l : List Nat}
    (hc : BlockChain mem k0 k1 h (b :: l) t) : h = b := by
  cases hc; rfl

theorem BlockChain.head_ne_zero {mem : Nat → Nat} {k0 k1 h t b : Nat} {l : List Nat}
    (hc : BlockChain mem k0 k1 h (b :: l) t) : b ≠ 0 := by
  cases hc with
  | cons ha tail => exact ha

theorem BlockChain.tail_chain {mem : Nat → Nat} {k0 k1 h t b : Nat} {l : List Nat}
    (hc : BlockChain mem k0 k1 h (b :: l) t) :
    BlockChain mem k0 k1 (mi_block_nextx k0 k1 (mem b)) l t := by
  cases hc with
  | cons ha tail => exact tail

theorem BlockChain.congr_mem {mem mem' : Nat → Nat} {k0 k1 h t : Nat} {l : List Nat}
    (hc : BlockChain mem k0 k1 h l t) (hag : ∀ x ∈ l, mem' x = mem x) :
    BlockChain mem' k0 k1 h l t := by
  induction hc with
  | nil t => exact BlockChain.nil t
  | cons ha tail ih =>
    refine BlockChain.cons ha ?_
    rw [hag _ (List.mem_cons_self _ _)]
    exact ih (fun x hx => hag x (List.mem_cons_of_mem _ hx))

theorem BlockChain.append_chain {mem : Nat → Nat} {k0 k1 h t u : Nat}
    {l l2 : List Nat} (h1 : BlockChain mem k0 k1 h l t)
    (h2 : BlockChain mem k0 k1 t l2 u) :
    BlockChain mem k0 k1 h (l ++ l2) u := by
  induction h1 with
  | nil t => simpa using h2
  | cons ha tail ih => exact BlockChain.cons ha (ih h2)

theorem getLastD_cons_eq (b a : Nat) (l : List Nat) :
    (b :: l).getLastD a = l.getLastD b := by
  cases l <;> rfl

theorem getLastD_mem_cons (l : List Nat) (a : Nat) : l.getLastD a ∈ a :: l := by
  induction l generalizing a with
  | nil => simp [List.getLastD]
  | cons b l ih =>
    rw [getLastD_cons_eq]
    exact List.mem_cons_of_mem a (ih b)

theorem mi_heap_absorb_reencode_spec (fk0 fk1 tk0 tk1 : Nat) :
    ∀ (l : List Nat) (fuel : Nat) (mem : Nat → Nat) (a : Nat),
      BlockChain mem fk0 fk1 a (a :: l) 0 →
      (a :: l).Nodup →
      l.length ≤ fuel →
      (mi_heap_absorb_reencode fuel mem fk0 fk1 tk0 tk1 a).2 = l.getLastD a ∧
      (∀ x, x ∉ a :: l →
        (mi_heap_absorb_reencode fuel mem fk0 fk1 tk0 tk1 a).1 x = mem x) ∧
      (∀ t, BlockChain
        (updMem (mi_heap_absorb_reencode fuel mem fk0 fk1 tk0 tk1 a).1
          (l.getLastD a) (mi_block_set_nextx tk0 tk1 t)) tk0 tk1 a (a :: l) t) := by
  intro l
  induction l with
  | nil =>
    intro fuel mem a hchain hnd hfuel
    have ha : a ≠ 0 := BlockChain.head_ne_zero hchain
    have h0 : mi_block_nextx fk0 fk1 (mem a) = 0 :=
      BlockChain.eq_of_nil (BlockChain.tail_chain hchain)
    have hwalk : mi_heap_absorb_reencode fuel mem fk0 fk1 tk0 tk1 a = (mem, a) := by
      cases fuel with
      | zero => rfl
      | succ f => simp [mi_heap_absorb_reencode, h0]
    refine ⟨by simp [hwalk], fun x hx => by rw [hwalk], fun t => ?_⟩
    rw [hwalk]
    refine BlockChain.cons ha ?_
    have hMa : updMem (mem, a).1 (List.getLastD [] a) (mi_block_set_nextx tk0 tk1 t) a
        = mi_block_set_nextx tk0 tk1 t := updMem_self _ _ _
    rw [hMa, mi_block_decode_encode]
    exact BlockChain.nil t
  | cons b l2 ih =>
    intro fuel mem a hchain hnd hfuel
    have ha : a ≠ 0 := BlockChain.head_ne_zero hchain
    have tailc := BlockChain.tail_chain hchain
    have hab : mi_block_nextx fk0 fk1 (mem a) = b := BlockChain.head_eq tailc
    have hb : b ≠ 0 := BlockChain.head_ne_zero (hab ▸ tailc)
    have hnota : a ∉ b :: l2 := (List.nodup_cons.mp hnd).1
    cases fuel with
    | zero => simp at hfuel
    | succ f =>
      have hstep : mi_heap_absorb_reencode (f + 1) mem fk0 fk1 tk0 tk1 a =
          mi_heap_absorb_reencode f (updMem mem a (mi_block_set_nextx tk0 tk1 b))
            fk0 fk1 tk0 tk1 b := by
        simp [mi_heap_absorb_reencode, hab, hb]
      have hchain1 : BlockChain (updMem mem a (mi_block_set_nextx tk0 tk1 b))
          fk0 fk1 b (b :: l2) 0 := by
        refine BlockChain.congr_mem (hab ▸ tailc) ?_
        intro x hx
        exact updMem_ne mem _ (fun he => hnota (he ▸ hx))
      obtain ⟨w1, w2, w3⟩ := ih f (updMem mem a (mi_block_set_nextx tk0 tk1 b)) b
        hchain1 (List.nodup_cons.mp hnd).2 (by simpa using Nat.le_of_succ_le_succ hfuel)
      rw [hstep, getLastD_cons_eq]
      refine ⟨w1, ?_, ?_⟩
      · intro x hx
        have hx2 : x ∉ b :: l2 := fun hm => hx (List.mem_cons_of_mem a hm)
        have hxa : x ≠ a := fun he => hx (he ▸ List.mem_cons_self a (b :: l2))
        rw [w2 x hx2, updMem_ne mem _ hxa]
      · intro t
        have hlast_mem : l2.getLastD b ∈ b :: l2 := getLastD_mem_cons l2 b
        have hane : a ≠ l2.getLastD b := fun he => hnota (he ▸ hlast_mem)
        refine BlockChain.cons ha ?_
        have hMa :
            updMem (mi_heap_absorb_reencode f (updMem mem a (mi_block_set_nextx tk0 tk1 b))
                fk0 fk1 tk0 tk1 b).1 (l2.getLastD b) (mi_block_set_nextx tk0 tk1 t) a
              = mi_block_set_nextx tk0 tk1 b := by
          rw [updMem_ne _ _ hane, w2 a hnota, updMem_self]
        rw [hMa, mi_block_decode_encode]
        exact w3 t

/-- C3 (counterexample): mi_heap_absorb returns immediately when the
source heap has page_count == 0, so a non-empty thread_delayed_free list
of such a heap is neither re-encoded nor transferred: after the call it is
still 16 (not null), and nothing reached the absorbing heap. -/
theorem mi_heap_absorb_empty_from_counterexample :
    ¬ ((mi_heap_absorb 4 c3to c3from c3mem).2.1.thread_delayed_free = 0) ∧
    (mi_heap_absorb 4 c3to c3from c3mem).1.thread_delayed_free = 0 := by
  decide

/-- C3 (amended): provided the source heap holds at least one page, absorb
moves its whole delayed-free list: if `l` is the obfuscated list of `from`
(under from's keys) and `m` the one of `to` (under to's keys), all blocks
distinct, then afterwards to's delayed-free head walks exactly l ++ m
under to's keys in the updated memory, and from's head is null. -/
theorem mi_heap_absorb_delayed_free_spec (fuel : Nat) (toh fromh : mi_heap_t)
    (mem : Nat → Nat) (l m : List Nat)
    (hl : BlockChain mem fromh.key0 fromh.key1 fromh.thread_delayed_free l 0)
    (hm : BlockChain mem toh.key0 toh.key1 toh.thread_delayed_free m 0)
    (hnd : (l ++ m).Nodup)
    (hpc : 0 < fromh.page_count)
    (hfuel : l.length ≤ fuel) :
    BlockChain (mi_heap_absorb fuel toh fromh mem).2.2 toh.key0 toh.key1
      (mi_heap_absorb fuel toh fromh mem).1.thread_delayed_free (l ++ m) 0 ∧
    (mi_heap_absorb fuel toh fromh mem).2.1.thread_delayed_free = 0 := by
  have hne : ¬ fromh.page_count = 0 := by omega
  cases l with
  | nil =>
    have h0 : fromh.thread_delayed_free = 0 := BlockChain.eq_of_nil hl
    constructor
    · simp only [mi_heap_absorb, if_neg hne, h0, if_pos rfl, List.nil_append]
      simpa using hm
    · simp [mi_heap_absorb, hne, h0, mi_heap_reset_pages]
  | cons a l2 =>
    have hfd : fromh.thread_delayed_free = a := BlockChain.head_eq hl
    have hl2 : BlockChain mem fromh.key0 fromh.key1 a (a :: l2) 0 := hfd ▸ hl
    have ha : a ≠ 0 := BlockChain.head_ne_zero hl2
    have hndl : (a :: l2).Nodup := List.Nodup.of_append_left hnd
    have hdisj : List.Disjoint (a :: l2) m := (List.nodup_append.mp hnd).2.2
    obtain ⟨w1, w2, w3⟩ := mi_heap_absorb_reencode_spec fromh.key0 fromh.key1
      toh.key0 toh.key1 l2 fuel mem a hl2 hndl (by simp only [List.length_cons] at hfuel; omega)
    have hmem_m : ∀ x ∈ m,
        updMem (mi_heap_absorb_reencode fuel mem fromh.key0 fromh.key1
            toh.key0 toh.key1 a).1 (l2.getLastD a)
          (mi_block_set_nextx toh.key0 toh.key1 toh.thread_delayed_free) x = mem x := by
      intro x hx
      have hxl : x ∉ a :: l2 := fun hmem => hdisj hmem hx
      have hxlast : x ≠ l2.getLastD a := fun he => hxl (he ▸ getLastD_mem_cons l2 a)
      rw [updMem_ne _ _ hxlast, w2 x hxl]
    have hchain_all : BlockChain
        (updMem (mi_heap_absorb_reencode fuel mem fromh.key0 fromh.key1
            toh.key0 toh.key1 a).1 (l2.getLastD a)
          (mi_block_set_nextx toh.key0 toh.key1 toh.thread_delayed_free))
        toh.key0 toh.key1 a ((a :: l2) ++ m) 0 :=
      BlockChain.append_chain (w3 toh.thread_delayed_free)
        (BlockChain.congr_mem hm hmem_m)
    constructor
    · simp only [mi_heap_absorb, if_neg hne, hfd, if_neg ha]
      simpa [w1] using hchain_all
    · simp [mi_heap_absorb, hne, hfd, ha, mi_heap_reset_pages]

/-- Witness for the amended absorb claim: one delayed block (address 16)
moves from a one-page heap onto the (empty) delayed list of the absorbing
heap, re-encoded under keys (4, 8). -/
theorem mi_heap_absorb_delayed_free_spec_witness :
    BlockChain (mi_heap_absorb 4 c3to c3fromW c3mem).2.2 c3to.key0 c3to.key1
      (mi_heap_absorb 4 c3to c3fromW c3mem).1.thread_delayed_free ([16] ++ []) 0 ∧
    (mi_heap_absorb 4 c3to c3fromW c3mem).2.1.thread_delayed_free = 0 :=
  mi_heap_absorb_delayed_free_spec 4 c3to c3fromW c3mem [16] []
    (BlockChain.cons (by decide)
      (show BlockChain c3mem c3fromW.key0 c3fromW.key1 0 [] 0 from BlockChain.nil 0))
    (BlockChain.nil 0) (by decide) (by decide) (by decide)

theorem getD_empty_of_all_empty {bins : List (List mi_page_t)}
    (h : ∀ q ∈ bins, q = []) (i : Nat) : bins.getD i [] = [] := by
  induction bins generalizing i with
  | nil => simp
  | cons b bs ih =>
    cases i with
    | zero => simpa using h b (List.mem_cons_self b bs)
    | succ i =>
      simp only [List.getD_cons_succ]
      exact ih (fun q hq => h q (List.mem_cons_of_mem b hq)) i

theorem zipWith_append_getD_mem (xs ys : List (List mi_page_t))
    (hlen : xs.length = ys.length) :
    ∀ (i : Nat) (pg : mi_page_t), pg ∈ ys.getD i [] →
      pg ∈ (List.zipWith (fun a b => a ++ b) xs ys).getD i [] := by
  induction xs generalizing ys with
  | nil =>
    cases ys with
    | nil => intro i pg hpg; simpa using hpg
    | cons y ys => simp at hlen
  | cons x xs ih =>
    cases ys with
    | nil => simp at hlen
    | cons y ys =>
      intro i pg hpg
      cases i with
      | zero =>
        simp only [List.getD_cons_zero, List.zipWith_cons_cons] at hpg ⊢
        exact List.mem_append_right x hpg
      | succ i =>
        simp only [List.getD_cons_succ, List.zipWith_cons_cons] at hpg ⊢
        exact ih ys (by simpa using hlen) i pg hpg

theorem mi_heap_absorb_components (fuel : Nat) (A B : mi_heap_t)
    (mem : Nat → Nat) (hz : ¬ B.page_count = 0) :
    (mi_heap_absorb fuel A B mem).1.pages =
      List.zipWith (fun a b => a ++ b) A.pages B.pages ∧
    (mi_heap_absorb fuel A B mem).1.page_count =
      A.page_count + (B.pages.map List.length).sum ∧
    (mi_heap_absorb fuel A B mem).2.1.page_count = 0 := by
  simp only [mi_heap_absorb, if_neg hz]
  split <;> simp [mi_heap_reset_pages]

/-- C5: absorb is additive on page counts — for heaps whose page_count
matches their queues (spec invariant 2) and whose bin arrays have the same
length, the absorbing heap's page_count afterwards is the sum of the two
page counts, the source's page_count is 0, and every page formerly in a
bin of B is linked in the corresponding bin of A afterwards. -/
theorem mi_heap_absorb_additive (fuel : Nat) (A B : mi_heap_t) (mem : Nat → Nat)
    (hA : A.page_count = mi_heap_page_sum A)
    (hB : B.page_count = mi_heap_page_sum B)
    (hlen : A.pages.length = B.pages.length) :
    (mi_heap_absorb fuel A B mem).1.page_count = A.page_count + B.page_count ∧
    (mi_heap_absorb fuel A B mem).2.1.page_count = 0 ∧
    ∀ (i : Nat) (pg : mi_page_t), pg ∈ B.pages.getD i [] →
      pg ∈ (mi_heap_absorb fuel A B mem).1.pages.getD i [] := by
  by_cases hz : B.page_count = 0
  · have hempty : ∀ q ∈ B.pages, q = [] :=
      pages_empty_of_sum_zero (by rw [← mi_heap_page_sum]; omega)
    simp only [mi_heap_absorb, if_pos hz]
    refine ⟨by omega, hz, ?_⟩
    intro i pg hpg
    rw [getD_empty_of_all_empty hempty i] at hpg
    cases hpg
  · obtain ⟨hpages, hcount, hzero⟩ := mi_heap_absorb_components fuel A B mem hz
    refine ⟨?_, hzero, ?_⟩
    · rw [hcount, hB, mi_heap_page_sum]
    · intro i pg hpg
      rw [hpages]
      exact zipWith_append_getD_mem A.pages B.pages hlen i pg hpg

/-- Witness for absorb additivity: A holds one page in bin 0, B one page
in bin 1; afterwards A has page_count 2 and B's page is in A's bin 1. -/
theorem mi_heap_absorb_additive_witness :
    (mi_heap_absorb 1 c5heapA c5heapB (fun _ => 0)).1.page_count =
      c5heapA.page_count + c5heapB.page_count ∧
    (mi_heap_absorb 1 c5heapA c5heapB (fun _ => 0)).2.1.page_count = 0 ∧
    ∀ (i : Nat) (pg : mi_page_t), pg ∈ c5heapB.pages.getD i [] →
      pg ∈ (mi_heap_absorb 1 c5heapA c5heapB (fun _ => 0)).1.pages.getD i [] :=
  mi_heap_absorb_additive 1 c5heapA c5heapB (fun _ => 0)
    (by decide) (by decide) (by decide)

/-- C2 (code evaluated at the failing input): collect with mode ABANDON on
an initialized heap still invokes try_reclaim_abandoned (with all =
false); the code's own comment says "(but not when abandoning)". -/
theorem mi_heap_collect_abandon_invokes_reclaim :
    MiEvent.tryReclaimAbandoned false ∈
      (mi_heap_collect_ex trivialExternal 1 c2world 1 mi_collect_t.ABANDON).events := by
  decide

/-- C4 (code evaluated at the failing input): deleting a backing heap that
still holds one live page (with no pending external work and an empty
abandoned stack) leaves the heap object alive with page_count 1 and pushes
it on the abandoned stack — its storage is not freed and page_count is not
0, contradicting the claimed post-condition (and the code's own
mi_assert_internal(heap->page_count == 0)). -/
theorem mi_heap_delete_backing_live_pages_eval :
    ((mi_heap_delete trivialExternal 1 c4world 1).core.heaps 1).map
      mi_heap_t.page_count = some 1 ∧
    (mi_heap_delete trivialExternal 1 c4world 1).core.abandoned = [1] := by
  decide

/-- C6: destroy on an initialized heap whose no_reclaim is false performs
exactly the safe delete; the bulk page-destruction path runs only when
no_reclaim is true. -/
theorem mi_heap_destroy_downgrade_spec (E : MiExternal) (fuel : Nat)
    (w : MiWorld) (id : Nat) (h : mi_heap_t)
    (hh : w.core.heaps id = some h)
    (hinit : mi_heap_is_initialized h = true) :
    (h.no_reclaim = false →
      mi_heap_destroy E fuel w id = mi_heap_delete E fuel w id) ∧
    (h.no_reclaim = true →
      mi_heap_destroy E fuel w id = mi_heap_free (mi_heap_destroy_pagesW w id) id) := by
  constructor
  · intro hnr
    simp [mi_heap_destroy, hh, hinit, hnr]
  · intro hnr
    simp [mi_heap_destroy, hh, hinit, hnr]

/-- Witness for the destroy downgrade at a concrete world (heap 2 is an
initialized non-backing heap with no_reclaim = false). -/
theorem mi_heap_destroy_downgrade_spec_witness :
    (({ mi_heap_empty with tld := some 0 } : mi_heap_t).no_reclaim = false →
      mi_heap_destroy trivialExternal 1 c6world 2 =
        mi_heap_delete trivialExternal 1 c6world 2) ∧
    (({ mi_heap_empty with tld := some 0 } : mi_heap_t).no_reclaim = true →
      mi_heap_destroy trivialExternal 1 c6world 2 =
        mi_heap_free (mi_heap_destroy_pagesW c6world 2) 2) :=
  mi_heap_destroy_downgrade_spec trivialExternal 1 c6world 2
    { mi_heap_empty with tld := some 0 } (by decide) (by decide)

/-- C7: on an uninitialized heap (tld = NULL) every core operation is a
no-op: collect, delete and destroy return the world unchanged,
set_default returns NULL without changing the default heap, and
contains_block and check_owned return false for every pointer. -/
theorem mi_heap_uninitialized_noop (E : MiExternal) (fuel : Nat) (w : MiWorld)
    (id : Nat) (h : mi_heap_t) (p : Nat) (mode : mi_collect_t)
    (hh : w.core.heaps id = some h) (huninit : h.tld = none) :
    mi_heap_collect_ex E fuel w id mode = w ∧
    mi_heap_delete E fuel w id = w ∧
    mi_heap_destroy E fuel w id = w ∧
    mi_heap_set_default w id = (none, w) ∧
    mi_heap_contains_block E w id p = false ∧
    mi_heap_check_owned h p = false := by
  have hinit : mi_heap_is_initialized h = false := by
    simp [mi_heap_is_initialized, huninit]
  refine ⟨?_, ?_, ?_, ?_, ?_, ?_⟩
  · simp [mi_heap_collect_ex, hh, hinit]
  · simp [mi_heap_delete, hh, hinit]
  · simp [mi_heap_destroy, hh, hinit]
  · simp [mi_heap_set_default, hh, hinit]
  · simp [mi_heap_contains_block, hh, hinit]
  · simp [mi_heap_check_owned, hinit]

/-- Witness for the uninitialized no-op claim at heap 2 of c7world. -/
theorem mi_heap_uninitialized_noop_witness :
    mi_heap_collect_ex trivialExternal 1 c7world 2 mi_collect_t.NORMAL = c7world ∧
    mi_heap_delete trivialExternal 1 c7world 2 = c7world ∧
    mi_heap_destroy trivialExternal 1 c7world 2 = c7world ∧
    mi_heap_set_default c7world 2 = (none, c7world) ∧
    mi_heap_contains_block trivialExternal c7world 2 3 = false ∧
    mi_heap_check_owned c7heap 3 = false :=
  mi_heap_uninitialized_noop trivialExternal 1 c7world 2 c7heap 3
    mi_collect_t.NORMAL (by decide) (by decide)

theorem mi_heap_free_eq_none {w : MiWorld} {id : Nat}
    (hid : w.core.heaps id = none) : mi_heap_free w id = w := by
  simp [mi_heap_free, hid]

theorem mi_heap_free_eq_backing {w : MiWorld} {id : Nat} {hcur : mi_heap_t}
    (hid : w.core.heaps id = some hcur)
    (hback : mi_heap_is_backing w id = true) : mi_heap_free w id = w := by
  simp [mi_heap_free, hid, hback]

theorem mi_heap_free_eq_default {w : MiWorld} {id : Nat} {hcur : mi_heap_t}
    (hid : w.core.heaps id = some hcur)
    (hback : mi_heap_is_backing w id = false)
    (hdef : mi_heap_is_default w id = true) :
    mi_heap_free w id =
      { w with core := { w.core with default_heap := w.core.heap_backing
                                     heaps := setHeapFun w.core.heaps id none } } := by
  simp [mi_heap_free, hid, hback, hdef]

theorem mi_heap_free_eq_other {w : MiWorld} {id : Nat} {hcur : mi_heap_t}
    (hid : w.core.heaps id = some hcur)
    (hback : mi_heap_is_backing w id = false)
    (hdef : mi_heap_is_default w id = false) :
    mi_heap_free w id =
      { w with core := { w.core with heaps := setHeapFun w.core.heaps id none } } := by
  simp [mi_heap_free, hid, hback, hdef]

/-- C10: mi_heap_free (the release step shared by delete and destroy)
never frees the backing heap's storage; when the heap being released is
the thread's current default heap, the default ends up pointing at the
backing heap; and afterwards the thread's default heap is still a live
heap. -/
theorem mi_heap_free_default_spec (w : MiWorld) (id : Nat) (hb hd : mi_heap_t)
    (hbk : w.core.heaps w.core.heap_backing = some hb)
    (hdf : w.core.heaps w.core.default_heap = some hd) :
    (mi_heap_free w id).core.heaps w.core.heap_backing = some hb ∧
    (w.core.default_heap = id →
      (mi_heap_free w id).core.default_heap = w.core.heap_backing) ∧
    ∃ h2, (mi_heap_free w id).core.heaps
      ((mi_heap_free w id).core.default_heap) = some h2 := by
  cases hid : w.core.heaps id with
  | none =>
    rw [mi_heap_free_eq_none hid]
    refine ⟨hbk, ?_, hd, hdf⟩
    intro hde
    rw [hde, hid] at hdf
    cases hdf
  | some hcur =>
    cases hback : mi_heap_is_backing w id with
    | true =>
      have hbeq : w.core.heap_backing = id := by
        simpa [mi_heap_is_backing] using hback
      rw [mi_heap_free_eq_backing hid hback]
      exact ⟨hbk, fun hde => by rw [hde, hbeq], hd, hdf⟩
    | false =>
      have hbne : w.core.heap_backing ≠ id := by
        simpa [mi_heap_is_backing] using hback
      cases hdef : mi_heap_is_default w id with
      | true =>
        rw [mi_heap_free_eq_default hid hback hdef]
        refine ⟨?_, fun _ => rfl, hb, ?_⟩
        · simp [setHeapFun, hbne, hbk]
        · simp [setHeapFun, hbne, hbk]
      | false =>
        have hdne : w.core.default_heap ≠ id := by
          simpa [mi_heap_is_default] using hdef
        rw [mi_heap_free_eq_other hid hback hdef]
        refine ⟨?_, fun hde => absurd hde hdne, hd, ?_⟩
        · simp [setHeapFun, hbne, hbk]
        · simp [setHeapFun, hdne, hdf]

/-- Witness for the mi_heap_free claim: releasing the non-backing,
non-default heap 2 of c7world. -/
theorem mi_heap_free_default_spec_witness :
    (mi_heap_free c7world 2).core.heaps c7world.core.heap_backing =
      some { mi_heap_empty with tld := some 0 } ∧
    (c7world.core.default_heap = 2 →
      (mi_heap_free c7world 2).core.default_heap = c7world.core.heap_backing) ∧
    ∃ h2, (mi_heap_free c7world 2).core.heaps
      ((mi_heap_free c7world 2).core.default_heap) = some h2 :=
  mi_heap_free_default_spec c7world 2 { mi_heap_empty with tld := some 0 }
    { mi_heap_empty with tld := some 0 } (by decide) (by decide)

theorem heapAlive_congr {c c' : MiCore} {j : Nat} (h : c'.heaps j = c.heaps j) :
    heapAlive c' j = heapAlive c j := by
  simp [heapAlive, h]

theorem StackOk_of_agree {c c' : MiCore} (hab : c'.abandoned = c.abandoned)
    (hag : ∀ j ∈ c.abandoned, c'.heaps j = c.heaps j) (hs : StackOk c) :
    StackOk c' := by
  intro j hj
  rw [hab] at hj
  rw [heapAlive_congr (hag j hj)]
  exact hs j hj

theorem AbandonInv.of_agree {id : Nat} {w w' : MiWorld}
    (hab : w'.core.abandoned = w.core.abandoned)
    (hag : ∀ j ∈ w.core.abandoned, w'.core.heaps j = w.core.heaps j)
    (hsm : (w'.core.heaps id).isSome = (w.core.heaps id).isSome)
    (h : AbandonInv id w) : AbandonInv id w' := by
  obtain ⟨hs, hn, hnd, hiso⟩ := h
  exact ⟨StackOk_of_agree hab hag hs, hab ▸ hn, hab ▸ hnd, by rw [hsm]; exact hiso⟩

theorem applyHeap_abandoned (w : MiWorld) (r : Nat) (f : mi_heap_t → mi_heap_t) :
    (applyHeap w r f).core.abandoned = w.core.abandoned := by
  cases hh : w.core.heaps r <;> simp [applyHeap, hh]

theorem applyHeap_heaps_ne (w : MiWorld) (r : Nat) (f : mi_heap_t → mi_heap_t)
    {j : Nat} (hj : j ≠ r) :
    (applyHeap w r f).core.heaps j = w.core.heaps j := by
  cases hh : w.core.heaps r <;> simp [applyHeap, hh, setHeapFun, hj]

theorem applyHeap_isSome (w : MiWorld) (r : Nat) (f : mi_heap_t → mi_heap_t)
    (j : Nat) :
    ((applyHeap w r f).core.heaps j).isSome = (w.core.heaps j).isSome := by
  cases hh : w.core.heaps r with
  | none => simp [applyHeap, hh]
  | some hp =>
    by_cases hj : j = r
    · subst hj; simp [applyHeap, hh, setHeapFun]
    · simp [applyHeap, hh, setHeapFun, hj]

theorem delayedFreeW_abandoned (E : MiExternal) (w : MiWorld) (r : Nat) :
    (heapDelayedFreeW E w r).core.abandoned = w.core.abandoned := by
  cases hh : w.core.heaps r <;> simp [heapDelayedFreeW, hh]

theorem delayedFreeW_heaps_ne (E : MiExternal) (w : MiWorld) (r : Nat)
    {j : Nat} (hj : j ≠ r) :
    (heapDelayedFreeW E w r).core.heaps j = w.core.heaps j := by
  cases hh : w.core.heaps r <;> simp [heapDelayedFreeW, hh, setHeapFun, hj]

theorem delayedFreeW_isSome (E : MiExternal) (w : MiWorld) (r : Nat) (j : Nat) :
    ((heapDelayedFreeW E w r).core.heaps j).isSome = (w.core.heaps j).isSome := by
  cases hh : w.core.heaps r with
  | none => simp [heapDelayedFreeW, hh]
  | some hp =>
    by_cases hj : j = r
    · subst hj; simp [heapDelayedFreeW, hh, setHeapFun]
    · simp [heapDelayedFreeW, hh, setHeapFun, hj]

theorem backing_free_abandoned (w : MiWorld) (r : Nat) :
    (mi_heap_backing_free w r).core.abandoned = w.core.abandoned := rfl

theorem backing_free_heaps_ne (w : MiWorld) (r : Nat) {j : Nat} (hj : j ≠ r) :
    (mi_heap_backing_free w r).core.heaps j = w.core.heaps j := by
  simp [mi_heap_backing_free, setHeapFun, hj]

theorem backing_free_heaps_self (w : MiWorld) (r : Nat) :
    (mi_heap_backing_free w r).core.heaps r = none := by
  simp [mi_heap_backing_free, setHeapFun]

theorem absorbW_abandoned (fuel : Nat) (w : MiWorld) (a b : Nat) :
    (mi_heap_absorbW fuel w a b).core.abandoned = w.core.abandoned := by
  cases h1 : w.core.heaps a <;> cases h2 : w.core.heaps b <;>
    simp [mi_heap_absorbW, h1, h2]

theorem absorbW_heaps_ne (fuel : Nat) (w : MiWorld) (a b : Nat) {j : Nat}
    (hja : j ≠ a) (hjb : j ≠ b) :
    (mi_heap_absorbW fuel w a b).core.heaps j = w.core.heaps j := by
  cases h1 : w.core.heaps a <;> cases h2 : w.core.heaps b <;>
    simp [mi_heap_absorbW, h1, h2, setHeapFun, hja, hjb]

theorem absorbW_isSome_to (fuel : Nat) (w : MiWorld) (a b : Nat) :
    ((mi_heap_absorbW fuel w a b).core.heaps a).isSome = (w.core.heaps a).isSome := by
  cases h1 : w.core.heaps a with
  | none => cases h2 : w.core.heaps b <;> simp [mi_heap_absorbW, h1, h2]
  | some t =>
    cases h2 : w.core.heaps b with
    | none => simp [mi_heap_absorbW, h1, h2]
    | some f =>
      by_cases hab : a = b
      · simp [mi_heap_absorbW, h1, h2, setHeapFun, hab]
      · simp only [mi_heap_absorbW, h1, h2, setHeapFun, h1]
        split <;> simp [h1]

theorem segabsorbW_abandoned (E : MiExternal) (w : MiWorld) (a b : Nat) :
    (mi_segments_absorbW E w a b).core.abandoned = w.core.abandoned := by
  cases h1 : w.core.heaps a <;> cases h2 : w.core.heaps b <;>
    simp [mi_segments_absorbW, h1, h2]

theorem segabsorbW_heaps_ne (E : MiExternal) (w : MiWorld) (a b : Nat) {j : Nat}
    (hja : j ≠ a) (hjb : j ≠ b) :
    (mi_segments_absorbW E w a b).core.heaps j = w.core.heaps j := by
  cases h1 : w.core.heaps a <;> cases h2 : w.core.heaps b <;>
    simp [mi_segments_absorbW, h1, h2, setHeapFun, hja, hjb]

theorem segabsorbW_isSome_to (E : MiExternal) (w : MiWorld) (a b : Nat) :
    ((mi_segments_absorbW E w a b).core.heaps a).isSome = (w.core.heaps a).isSome := by
  cases h1 : w.core.heaps a with
  | none => cases h2 : w.core.heaps b <;> simp [mi_segments_absorbW, h1, h2]
  | some t =>
    cases h2 : w.core.heaps b with
    | none => simp [mi_segments_absorbW, h1, h2]
    | some f =>
      by_cases hab : a = b
      · simp [mi_segments_absorbW, h1, h2, setHeapFun, hab]
      · simp only [mi_segments_absorbW, h1, h2, setHeapFun, h1]
        split <;> simp [h1]

theorem prepend_abandoned_eq (w : MiWorld) (chain : List Nat) :
    (mi_heap_prepend_abandoned w chain).core.abandoned =
      chain ++ w.core.abandoned := by
  cases chain <;> simp [mi_heap_prepend_abandoned]

theorem prepend_heaps_eq (w : MiWorld) (chain : List Nat) :
    (mi_heap_prepend_abandoned w chain).core.heaps = w.core.heaps := by
  cases chain <;> rfl

theorem inv_applyHeap_any {id r : Nat} {w : MiWorld} {f : mi_heap_t → mi_heap_t}
    (hr : r ∉ w.core.abandoned) (h : AbandonInv id w) :
    AbandonInv id (applyHeap w r f) :=
  AbandonInv.of_agree (applyHeap_abandoned w r f)
    (fun j hj => applyHeap_heaps_ne w r f (fun he => hr (he ▸ hj)))
    (applyHeap_isSome w r f id) h

theorem inv_applyHeap_self {id : Nat} {w : MiWorld} {f : mi_heap_t → mi_heap_t}
    (h : AbandonInv id w) : AbandonInv id (applyHeap w id f) :=
  inv_applyHeap_any h.2.1 h

theorem inv_delayedFreeW_self {id : Nat} {E : MiExternal} {w : MiWorld}
    (h : AbandonInv id w) : AbandonInv id (heapDelayedFreeW E w id) :=
  AbandonInv.of_agree (delayedFreeW_abandoned E w id)
    (fun j hj => delayedFreeW_heaps_ne E w id (fun he => h.2.1 (he ▸ hj)))
    (delayedFreeW_isSome E w id id) h

theorem inv_absorbW {id r fuel : Nat} {w : MiWorld}
    (hr : r ∉ w.core.abandoned) (h : AbandonInv id w) :
    AbandonInv id (mi_heap_absorbW fuel w id r) :=
  AbandonInv.of_agree (absorbW_abandoned fuel w id r)
    (fun j hj => absorbW_heaps_ne fuel w id r
      (fun he => h.2.1 (he ▸ hj)) (fun he => hr (he ▸ hj)))
    (absorbW_isSome_to fuel w id r) h

theorem inv_segabsorbW {id r : Nat} {E : MiExternal} {w : MiWorld}
    (hr : r ∉ w.core.abandoned) (h : AbandonInv id w) :
    AbandonInv id (mi_segments_absorbW E w id r) :=
  AbandonInv.of_agree (segabsorbW_abandoned E w id r)
    (fun j hj => segabsorbW_heaps_ne E w id r
      (fun he => h.2.1 (he ▸ hj)) (fun he => hr (he ▸ hj)))
    (segabsorbW_isSome_to E w id r) h

theorem inv_backing_free {id r : Nat} {w : MiWorld}
    (hr : r ∉ w.core.abandoned) (hrid : r ≠ id) (h : AbandonInv id w) :
    AbandonInv id (mi_heap_backing_free w r) :=
  AbandonInv.of_agree (backing_free_abandoned w r)
    (fun j hj => backing_free_heaps_ne w r (fun he => hr (he ▸ hj)))
    (by rw [backing_free_heaps_ne w r (fun he => hrid he.symm)]) h

theorem inv_reclaim_loop {id : Nat} (E : MiExternal) (fuel : Nat) :
    ∀ (claimed : List Nat) (w : MiWorld),
      AbandonInv id w →
      (∀ c ∈ claimed, c ∉ w.core.abandoned ∧ c ≠ id) →
      AbandonInv id (mi_reclaim_loop E fuel w id claimed) := by
  intro claimed
  induction claimed with
  | nil => intro w h hc; exact h
  | cons r rs ih =>
    intro w h hc
    have hr := hc r (List.mem_cons_self r rs)
    have h1 : AbandonInv id (mi_heap_absorbW fuel w id r) := inv_absorbW hr.1 h
    have hr1 : r ∉ (mi_heap_absorbW fuel w id r).core.abandoned := by
      rw [absorbW_abandoned]; exact hr.1
    have h2 : AbandonInv id (mi_segments_absorbW E (mi_heap_absorbW fuel w id r) id r) :=
      inv_segabsorbW hr1 h1
    have hr2 : r ∉ (mi_segments_absorbW E (mi_heap_absorbW fuel w id r) id r).core.abandoned := by
      rw [segabsorbW_abandoned, absorbW_abandoned]; exact hr.1
    have h3 : AbandonInv id (mi_heap_backing_free
        (mi_segments_absorbW E (mi_heap_absorbW fuel w id r) id r) r) :=
      inv_backing_free hr2 hr.2 h2
    simp only [mi_reclaim_loop]
    apply ih _ h3
    intro c hcrs
    have hcw := hc c (List.mem_cons_of_mem r hcrs)
    refine ⟨?_, hcw.2⟩
    rw [backing_free_abandoned, segabsorbW_abandoned, absorbW_abandoned]
    exact hcw.1

theorem applyHeap_heaps_self {w : MiWorld} {r : Nat} {f : mi_heap_t → mi_heap_t}
    {hp : mi_heap_t} (hh : w.core.heaps r = some hp) :
    (applyHeap w r f).core.heaps r = some (f hp) := by
  simp [applyHeap, hh, setHeapFun]

theorem inv_try_reclaim {id : Nat} (E : MiExternal) (fuel : Nat) (w : MiWorld)
    (all : Bool) (h : AbandonInv id w) :
    AbandonInv id (mi_heap_try_reclaim_abandoned E fuel w id all) := by
  have hemit : AbandonInv id (emitEvent w (MiEvent.tryReclaimAbandoned all)) := h
  unfold mi_heap_try_reclaim_abandoned
  cases hh : w.core.heaps id with
  | none => simpa [emitEvent, hh] using hemit
  | some hp =>
    cases hnr : hp.no_reclaim with
    | true => simpa [emitEvent, hh, hnr] using hemit
    | false =>
      cases hstk : w.core.abandoned with
      | nil => simpa [emitEvent, hh, hnr, hstk] using hemit
      | cons r rest =>
        have hid_stack : id ∉ r :: rest := hstk ▸ h.2.1
        have hnd_stack : (r :: rest).Nodup := hstk ▸ h.2.2.1
        have hiso : (w.core.heaps id).isSome = true := h.2.2.2
        simp only [emitEvent, hh, hnr, hstk]
        cases all with
        | true =>
          rw [if_pos rfl]
          exact inv_reclaim_loop E fuel (r :: rest) _
            ⟨fun j hj => absurd hj (List.not_mem_nil j), List.not_mem_nil id,
              List.nodup_nil, hiso⟩
            (fun c hc => ⟨List.not_mem_nil c, fun he => hid_stack (he ▸ hc)⟩)
        | false =>
          rw [if_neg Bool.false_ne_true]
          have hr_rest : r ∉ rest := (List.nodup_cons.mp hnd_stack).1
          have hid_r : r ≠ id := fun he => hid_stack (he ▸ List.mem_cons_self r rest)
          refine inv_reclaim_loop E fuel [r] _ ⟨?_, ?_, ?_, ?_⟩ ?_
          · intro j hj
            rw [prepend_abandoned_eq, applyHeap_abandoned] at hj
            have hj2 : j ∈ rest := by
              have : j ∈ rest ++ ([] : List Nat) := hj
              simpa using this
            have hjr : j ≠ r := fun he => hr_rest (he ▸ hj2)
            have heq : (mi_heap_prepend_abandoned (applyHeap
                { core := { w.core with abandoned := [] }
                  events := w.events ++ [MiEvent.tryReclaimAbandoned false] } r
                (fun h => { h with abandoned_next := 0 })) rest).core.heaps j =
                w.core.heaps j := by
              rw [prepend_heaps_eq, applyHeap_heaps_ne _ _ _ hjr]
            rw [heapAlive_congr heq]
            exact h.1 j (by rw [hstk]; exact List.mem_cons_of_mem r hj2)
          · rw [prepend_abandoned_eq, applyHeap_abandoned]
            intro hj
            have hj2 : id ∈ rest := by
              have : id ∈ rest ++ ([] : List Nat) := hj
              simpa using this
            exact hid_stack (List.mem_cons_of_mem r hj2)
          · rw [prepend_abandoned_eq, applyHeap_abandoned]
            have : (rest ++ ([] : List Nat)).Nodup := by
              simpa using (List.nodup_cons.mp hnd_stack).2
            exact this
          · rw [prepend_heaps_eq, applyHeap_isSome]
            exact hiso
          · intro c hc
            rw [List.mem_singleton] at hc
            subst hc
            refine ⟨?_, hid_r⟩
            rw [prepend_abandoned_eq, applyHeap_abandoned]
            intro hj
            have hj2 : c ∈ rest := by
              have : c ∈ rest ++ ([] : List Nat) := hj
              simpa using this
            exact hr_rest hj2

theorem inv_collect_ex {id : Nat} (E : MiExternal) (fuel : Nat) (w : MiWorld)
    (mode : mi_collect_t) (h : AbandonInv id w) :
    AbandonInv id (mi_heap_collect_ex E fuel w id mode) := by
  cases hh : w.core.heaps id with
  | none => simpa [mi_heap_collect_ex, hh] using h
  | some hp =>
    cases hi : mi_heap_is_initialized hp with
    | false => simpa [mi_heap_collect_ex, hh, hi] using h
    | true =>
      simp only [mi_heap_collect_ex, hh, hi]
      have h1 : AbandonInv id
          (applyHeap w id (E.deferredFree (decide (mi_collect_t.NORMAL.val < mode.val)))) :=
        inv_applyHeap_self h
      have h2 := inv_try_reclaim E fuel
        (applyHeap w id (E.deferredFree (decide (mi_collect_t.NORMAL.val < mode.val))))
        (decide (mode = mi_collect_t.FORCE)) h1
      have h3 := inv_delayedFreeW_self (E := E) h2
      have h4 := inv_applyHeap_self (f := fun h => E.collectRetired h true) h3
      by_cases hmc : mi_collect_t.FORCE.val ≤ mode.val ∧ E.isMainThread = true
      · rw [if_pos hmc]
        refine inv_applyHeap_self ?_
        by_cases hseg : mi_collect_t.FORCE.val ≤ mode.val
        · rw [if_pos hseg]; exact inv_applyHeap_self h4
        · rw [if_neg hseg]; exact h4
      · rw [if_neg hmc]
        by_cases hseg : mi_collect_t.FORCE.val ≤ mode.val
        · rw [if_pos hseg]; exact inv_applyHeap_self h4
        · rw [if_neg hseg]; exact h4

/-- C8: after _mi_heap_collect_abandon on a heap that is not already on
the abandoned stack, the stack invariant (every stacked heap exists and
has page_count > 0) is preserved, and the abandoned heap is either freed
immediately or sits at the head of the stack with page_count > 0 and
abandoned_next = 0 — the stack never holds an empty heap. -/
theorem mi_heap_collect_abandon_stack_spec (E : MiExternal) (fuel : Nat)
    (w : MiWorld) (id : Nat) (hinv : AbandonInv id w) :
    StackOk (mi_heap_collect_abandon E fuel w id).core ∧
    ((mi_heap_collect_abandon E fuel w id).core.heaps id = none ∨
      ∃ (h2 : mi_heap_t) (rest : List Nat),
        (mi_heap_collect_abandon E fuel w id).core.heaps id = some h2 ∧
        0 < h2.page_count ∧ h2.abandoned_next = 0 ∧
        (mi_heap_collect_abandon E fuel w id).core.abandoned = id :: rest) := by
  have h1 : AbandonInv id (mi_heap_collect_ex E fuel w id mi_collect_t.ABANDON) :=
    inv_collect_ex E fuel w mi_collect_t.ABANDON hinv
  have h2 : AbandonInv id
      (applyHeap (mi_heap_collect_ex E fuel w id mi_collect_t.ABANDON) id E.statsDone) :=
    inv_applyHeap_self h1
  unfold mi_heap_collect_abandon
  cases hh : (applyHeap (mi_heap_collect_ex E fuel w id mi_collect_t.ABANDON) id
      E.statsDone).core.heaps id with
  | none =>
    simp only [hh]
    exact ⟨h2.1, Or.inl trivial⟩
  | some hp =>
    by_cases hpc : hp.page_count = 0
    · simp only [hh, if_pos hpc]
      constructor
      · refine StackOk_of_agree (backing_free_abandoned _ id) ?_ h2.1
        intro j hj
        exact backing_free_heaps_ne _ id (fun he => h2.2.1 (he ▸ hj))
      · exact Or.inl (backing_free_heaps_self _ id)
    · simp only [hh, if_neg hpc]
      have happ : (applyHeap (applyHeap (mi_heap_collect_ex E fuel w id
          mi_collect_t.ABANDON) id E.statsDone) id
          (fun h => { h with abandoned_next := 0 })).core.heaps id =
          some { hp with abandoned_next := 0 } := applyHeap_heaps_self hh
      refine ⟨?_, Or.inr ⟨{ hp with abandoned_next := 0 },
        (applyHeap (mi_heap_collect_ex E fuel w id mi_collect_t.ABANDON)
          id E.statsDone).core.abandoned, ?_, ?_, rfl, ?_⟩⟩
      · intro j hj
        rw [prepend_abandoned_eq, List.singleton_append] at hj
        rcases List.mem_cons.mp hj with rfl | hj2
        · have heq : (mi_heap_prepend_abandoned (applyHeap (applyHeap
              (mi_heap_collect_ex E fuel w j mi_collect_t.ABANDON) j E.statsDone) j
              (fun h => { h with abandoned_next := 0 })) [j]).core.heaps j =
              some { hp with abandoned_next := 0 } := by
            rw [prepend_heaps_eq]; exact happ
          simp only [heapAlive, heq]
          simpa using Nat.pos_of_ne_zero hpc
        · rw [applyHeap_abandoned] at hj2
          have hjid : j ≠ id := fun he => h2.2.1 (he ▸ hj2)
          have heq : (mi_heap_prepend_abandoned (applyHeap (applyHeap
              (mi_heap_collect_ex E fuel w id mi_collect_t.ABANDON) id E.statsDone) id
              (fun h => { h with abandoned_next := 0 })) [id]).core.heaps j =
              (applyHeap (mi_heap_collect_ex E fuel w id mi_collect_t.ABANDON) id
                E.statsDone).core.heaps j := by
            rw [prepend_heaps_eq, applyHeap_heaps_ne _ _ _ hjid]
          rw [heapAlive_congr heq]
          exact h2.1 j hj2
      · rw [prepend_heaps_eq]; exact happ
      · exact Nat.pos_of_ne_zero hpc
      · rw [prepend_abandoned_eq, applyHeap_abandoned, List.singleton_append]

/-- Witness for the abandonment stack claim: abandoning the backing heap
of c4world, which holds one live page and an empty abandoned stack. -/
theorem mi_heap_collect_abandon_stack_spec_witness :
    StackOk (mi_heap_collect_abandon trivialExternal 1 c4world 1).core ∧
    ((mi_heap_collect_abandon trivialExternal 1 c4world 1).core.heaps 1 = none ∨
      ∃ (h2 : mi_heap_t) (rest : List Nat),
        (mi_heap_collect_abandon trivialExternal 1 c4world 1).core.heaps 1 = some h2 ∧
        0 < h2.page_count ∧ h2.abandoned_next = 0 ∧
        (mi_heap_collect_abandon trivialExternal 1 c4world 1).core.abandoned = 1 :: rest) :=
  mi_heap_collect_abandon_stack_spec trivialExternal 1 c4world 1
    ⟨fun j hj => absurd hj (List.not_mem_nil j), List.not_mem_nil 1,
      List.nodup_nil, by decide⟩

/-- C9: the page iterator returns false on a NULL heap or a heap with
page_count == 0 without invoking its visitor (the state comes back
unchanged for every visitor function), and consequently
mi_heap_visit_blocks returns false on an empty heap even though no visitor
callback ever ran or requested an early exit. -/
theorem mi_heap_visit_blocks_empty_false {σ : Type}
    (pfc : Bool → mi_page_t → mi_page_t) (pho : mi_page_t → mi_heap_t)
    (oh : Option mi_heap_t) (vb : Bool) (visitor : MiBlockVisitFun σ) (s : σ)
    (hempty : oh = none ∨ ∃ hp, oh = some hp ∧ hp.page_count = 0) :
    mi_heap_visit_blocks pfc pho oh vb visitor s = (s, false) ∧
    (∀ (fn : mi_heap_t → mi_page_t → σ → σ × Bool) (t : σ),
      mi_heap_visit_pages oh fn t = (t, false)) := by
  have hpages : ∀ (fn : mi_heap_t → mi_page_t → σ → σ × Bool) (t : σ),
      mi_heap_visit_pages oh fn t = (t, false) := by
    intro fn t
    rcases hempty with rfl | ⟨hp, rfl, hpc⟩
    · rfl
    · simp [mi_heap_visit_pages, hpc]
  refine ⟨?_, hpages⟩
  simp only [mi_heap_visit_blocks, mi_heap_visit_areas]
  exact hpages _ s

/-- Witness for the empty-heap visitor claim at the empty heap template. -/
theorem mi_heap_visit_blocks_empty_false_witness :
    mi_heap_visit_blocks (fun _ p => p) (fun _ => mi_heap_empty)
      (some mi_heap_empty) true (fun _ _ _ _ s => (s, true)) (0 : Nat) =
      (0, false) ∧
    (∀ (fn : mi_heap_t → mi_page_t → Nat → Nat × Bool) (t : Nat),
      mi_heap_visit_pages (some mi_heap_empty) fn t = (t, false)) :=
  mi_heap_visit_blocks_empty_false (fun _ p => p) (fun _ => mi_heap_empty)
    (some mi_heap_empty) true (fun _ _ _ _ s => (s, true)) 0
    (Or.inr ⟨mi_heap_empty, rfl, rfl⟩)
